import Mathlib

/-!
Verification model of the `unpaid-intern` string-interning library.

Source files embedded:
* `src/istr.rs`   — the `Istr` identifier type and the `IstrRepr` representation trait
  with its six implementations (`NonZeroUsize`, `NonZeroU64`, `NonZeroU32`, `usize`,
  `u64`, `u32`).
* `src/interner.rs` — the width-generic `Interner` (`try_intern`, `intern`,
  `get_interned`, `get_str`, `Index`).
* `src/intern.rs` — the fixed 32-bit `Interner`/`Istr` pair (namespace `Intern32`).

Modelling conventions:
* Machine integers are `Nat`.  A 64-bit platform is assumed, so `usize` values live in
  `[0, 2^64)` (`usizeBound`); wrapping arithmetic is explicit `% usizeBound` /
  `% u32Bound`.
* `RefCell` interior mutability is modelled by explicit state passing: an operation that
  mutates the interner returns the new `Interner` state alongside its result.
* Panics (`expect`) are modelled with `Except String`, the error carrying the panic
  message.
* The hashbrown `HashTable` is modelled as a list of `Metadata` entries.  `find`/`entry`
  probe by the precomputed hash and re-verify candidates with the full equality
  predicate `arena.get(to_index) == Some(key)`, exactly as the Rust closures do; an
  insertion appends the new entry.
* `FxBuildHasher::default()` is a fixed deterministic hasher; it is modelled by the
  deterministic function `hash_one`.  The exact mixing function is irrelevant to the
  interner's semantics because every probe re-verifies full string equality.
-/

/-- Number of values of a 64-bit `usize`. -/
def usizeBound : Nat := 2 ^ 64

/-- Number of values of a `u32`. -/
def u32Bound : Nat := 2 ^ 32

/-- Modelled from the spec: the byte arena (`src/arena.rs` is not under `src/`; only
its callers are).  Spec §4.1: `push_str(s) -> index` copies `s` into stable storage and
returns a newly assigned, strictly increasing `usize` slot index starting at 0;
`get(index) -> Option<string-slice>` returns the string previously stored at `index`,
or nothing if `index` is out of range.  An append-only list of strings realises exactly
this contract (slot `i` holds the `i`-th inserted string). -/
abbrev InternerArena := List String

/-- Modelled from the spec: `push_str` stores the string and returns the next slot
index (the current number of stored strings). -/
def InternerArena.push_str (a : InternerArena) (s : String) : Nat × InternerArena :=
  (a.length, a ++ [s])

/-- Modelled from the spec: `get` returns the string stored at the given slot index,
or `none` if the index is out of range. -/
def InternerArena.get (a : InternerArena) (index : Nat) : Option String :=
  a[index]?

/-- The `IstrRepr` trait of `src/istr.rs`: a backing type for an `Istr`, supporting the
two conversions `from_index : usize -> Option Repr` and `to_index : Repr -> usize`.
The carrier is `R`; each Rust implementation is a concrete `IstrRepr` value below. -/
structure IstrRepr (R : Type) where
  from_index : Nat → Option R
  to_index : R → Nat

/-- The `impl IstrRepr for NonZeroUsize` of `src/istr.rs` (the default representation):
`from_index` is `NonZeroUsize::new(index.wrapping_add(1))`, `to_index` is
`self.get() - 1`.  The carrier is `Nat`, holding the `NonZeroUsize` value; the
`if index < usizeBound` guard expresses that the argument is a `usize` (inputs outside
the `usize` domain do not exist in Rust and are mapped to `none`). -/
def nonZeroUsizeRepr : IstrRepr Nat where
  from_index index :=
    if index < usizeBound then
      (if (index + 1) % usizeBound = 0 then none else some ((index + 1) % usizeBound))
    else none
  to_index r := r - 1

/-- The `impl IstrRepr for NonZeroU64` of `src/istr.rs`: `u64::try_from(index)` (which
on a 64-bit platform fails exactly for inputs outside the `u64` range), then
`NonZeroU64::new(n.wrapping_add(1))`; `to_index` is `self.get() as usize - 1`. -/
def nonZeroU64Repr : IstrRepr Nat where
  from_index index :=
    if index < usizeBound then
      (if (index + 1) % usizeBound = 0 then none else some ((index + 1) % usizeBound))
    else none
  to_index r := r - 1

/-- The `impl IstrRepr for NonZeroU32` of `src/istr.rs`: `u32::try_from(index)` (fails
for `index ≥ 2^32`), then `NonZeroU32::new(n.wrapping_add(1))`; `to_index` is
`self.get() as usize - 1`. -/
def nonZeroU32Repr : IstrRepr Nat where
  from_index index :=
    if index < u32Bound then
      (if (index + 1) % u32Bound = 0 then none else some ((index + 1) % u32Bound))
    else none
  to_index r := r - 1

/-- The `impl IstrRepr for usize` of `src/istr.rs`: `from_index` is `Some(index)`,
`to_index` is the identity. -/
def usizeRepr : IstrRepr Nat where
  from_index index := some index
  to_index r := r

/-- The `impl IstrRepr for u64` of `src/istr.rs`: `u64::try_from(index).ok()` (on a
64-bit platform this succeeds for every `usize`), `to_index` is `self as usize`. -/
def u64Repr : IstrRepr Nat where
  from_index index := if index < usizeBound then some index else none
  to_index r := r

/-- The `impl IstrRepr for u32` of `src/istr.rs`: `u32::try_from(index).ok()` (fails
for `index ≥ 2^32`), `to_index` is `self as usize`. -/
def u32Repr : IstrRepr Nat where
  from_index index := if index < u32Bound then some index else none
  to_index r := r

/-- The `Istr` identifier of `src/istr.rs`: a wrapper around a backing value. -/
structure Istr (R : Type) where
  repr : R
deriving DecidableEq

/-- The `Metadata` entry of `src/interner.rs`: one occupied hash-table slot, storing
the interned identifier and the cached hash of its string. -/
structure Metadata (R : Type) where
  interned : Istr R
  hash : Nat
deriving DecidableEq

/-- Models `FxBuildHasher::default().hash_one(key)` from rustc-hash: a fixed, cheap,
deterministic hash of the string (a polynomial fold over the characters, reduced
modulo the 64-bit word size).  The exact mixing function is irrelevant to the
interner's observable behaviour, since every table probe re-verifies full string
equality through the arena. -/
def hash_one (s : String) : Nat :=
  s.data.foldl (fun h c => (h * 31 + c.toNat) % usizeBound) 5381

/-- The `Interner` of `src/interner.rs`: one deduplicating lookup table (the
`Lookup.table` field, behind a `RefCell`) and one arena.  The `random_state` field is
the fixed deterministic hasher `hash_one`. -/
structure Interner (R : Type) where
  table : List (Metadata R)
  arena : InternerArena

/-- `Interner::new` / `Default::default()`: empty table, empty arena. -/
def Interner.new {R : Type} : Interner R := ⟨[], []⟩

/-- The probe of `HashTable::find` / `HashTable::entry` in `src/interner.rs`: an entry
matches the query when its cached hash equals the query hash (the bucket probe) and
re-deriving its string through the arena yields the query string (the closure
`|metadata| self.arena.get(metadata.interned.repr.to_index()) == Some(key)`). -/
def Lookup.find {R : Type} (ops : IstrRepr R) (arena : InternerArena)
    (table : List (Metadata R)) (hash : Nat) (key : String) : Option (Metadata R) :=
  table.find? fun metadata =>
    metadata.hash == hash
      && InternerArena.get arena (ops.to_index metadata.interned.repr) == some key

/-- `Interner::try_intern` of `src/interner.rs`: hash the key and probe the table.
On an occupied entry, return its identifier.  On a vacant entry, push the key into the
arena (this happens first), convert the returned slot index with `from_index` (the `?`
operator: on `None` the whole call returns `None`, with the arena already extended and
the table untouched), insert the new `Metadata` entry, and return the new identifier. -/
def Interner.try_intern {R : Type} (ops : IstrRepr R) (st : Interner R) (key : String) :
    Option (Istr R) × Interner R :=
  let hash := hash_one key
  match Lookup.find ops st.arena st.table hash key with
  | some metadata => (some metadata.interned, st)
  | none =>
      let pushed := InternerArena.push_str st.arena key
      match ops.from_index pushed.1 with
      | none => (none, { st with arena := pushed.2 })
      | some r =>
          (some ⟨r⟩, { table := st.table ++ [⟨⟨r⟩, hash⟩], arena := pushed.2 })

/-- `Interner::intern` of `src/interner.rs`:
`self.try_intern(key).expect("too many interned strings")`.  The panic is modelled as
`Except.error` carrying the panic message. -/
def Interner.intern {R : Type} (ops : IstrRepr R) (st : Interner R) (key : String) :
    Except String (Istr R) × Interner R :=
  match Interner.try_intern ops st key with
  | (some interned, st') => (Except.ok interned, st')
  | (none, st') => (Except.error "too many interned strings", st')

/-- `Interner::get_interned` of `src/interner.rs`: pure lookup, no insertion. -/
def Interner.get_interned {R : Type} (ops : IstrRepr R) (st : Interner R)
    (key : String) : Option (Istr R) :=
  Option.map (fun metadata => metadata.interned)
    (Lookup.find ops st.arena st.table (hash_one key) key)

/-- `Interner::get_str` of `src/interner.rs`:
`self.arena.get(interned.repr.to_index())`. -/
def Interner.get_str {R : Type} (ops : IstrRepr R) (st : Interner R)
    (interned : Istr R) : Option String :=
  InternerArena.get st.arena (ops.to_index interned.repr)

/-- The `Index<Istr<I>>` impl of `src/interner.rs`:
`self.get_str(interned).expect("string not in interner")`, the panic modelled as
`Except.error`. -/
def Interner.index {R : Type} (ops : IstrRepr R) (st : Interner R)
    (interned : Istr R) : Except String String :=
  match Interner.get_str ops st interned with
  | some s => Except.ok s
  | none => Except.error "string not in interner"

/-- Run a sequence of `try_intern` calls, keeping only the final state. -/
def Interner.runIntern {R : Type} (ops : IstrRepr R) (st : Interner R)
    (keys : List String) : Interner R :=
  keys.foldl (fun st k => (Interner.try_intern ops st k).2) st

/-- Run a sequence of `try_intern` calls, collecting the returned identifiers. -/
def Interner.runIntern' {R : Type} (ops : IstrRepr R) (st : Interner R) :
    List String → List (Option (Istr R)) × Interner R
  | [] => ([], st)
  | k :: ks =>
      let step := Interner.try_intern ops st k
      let rest := Interner.runIntern' ops step.2 ks
      (step.1 :: rest.1, rest.2)

/-- Table validity: every lookup entry points at an occupied arena slot. -/
def TableInv {R : Type} (ops : IstrRepr R) (st : Interner R) : Prop :=
  ∀ m ∈ st.table, ops.to_index m.interned.repr < st.arena.length

/-- Invariant of every interner state reachable from `Interner.new`:
(1) every table entry resolves through the arena to a string whose hash it caches, and
(2) every arena slot whose index is representable is registered in the table. -/
def GoodState {R : Type} (ops : IstrRepr R) (st : Interner R) : Prop :=
  (∀ m ∈ st.table,
      ∃ t, InternerArena.get st.arena (ops.to_index m.interned.repr) = some t
        ∧ m.hash = hash_one t)
  ∧ (∀ i r, ops.from_index i = some r →
      (∃ t, InternerArena.get st.arena i = some t) →
      ∃ m ∈ st.table, ops.to_index m.interned.repr = i)

/-- A representation is inverse-correct when `to_index` undoes every successful
`from_index` (spec §4.2: `to_index` is the inverse of `from_index`). -/
def ReprInv {R : Type} (ops : IstrRepr R) : Prop :=
  ∀ n r, ops.from_index n = some r → ops.to_index r = n

/-- The non-zero representations store `index + 1`. -/
def ReprPlusOne (ops : IstrRepr Nat) : Prop :=
  ∀ n r, ops.from_index n = some r → r = n + 1

/-- Round-trip statement of one representation at one index: if `from_index` succeeds
then `to_index` recovers the index. -/
def FromToAt {R : Type} (ops : IstrRepr R) (index : Nat) : Prop :=
  Option.elim (ops.from_index index) True (fun r => ops.to_index r = index)

/-- Conversion behaviour of all six `IstrRepr` implementations at one index
(spec §4.2): the exact failure boundary of `from_index` and the `to_index` round-trip.
The non-zero representations store `index + 1`, so they additionally cannot represent
the all-ones index (`usize::MAX` resp. `u32::MAX`) whose successor wraps to zero. -/
def ReprSpecAt (index : Nat) : Prop :=
  (nonZeroUsizeRepr.from_index index = none ↔ index = usizeBound - 1)
  ∧ FromToAt nonZeroUsizeRepr index
  ∧ (nonZeroU64Repr.from_index index = none ↔ index = usizeBound - 1)
  ∧ FromToAt nonZeroU64Repr index
  ∧ (nonZeroU32Repr.from_index index = none ↔ u32Bound - 1 ≤ index)
  ∧ FromToAt nonZeroU32Repr index
  ∧ (usizeRepr.from_index index = none ↔ False)
  ∧ FromToAt usizeRepr index
  ∧ (u64Repr.from_index index = none ↔ False)
  ∧ FromToAt u64Repr index
  ∧ (u32Repr.from_index index = none ↔ u32Bound ≤ index)
  ∧ FromToAt u32Repr index

/-- The value range of the Rust type `NonZeroU32`: the `IstrRepr` carrier `Nat`
over-approximates the Rust backing type, whose inhabitants are exactly `1..2^32-1`. -/
def nonZeroU32Valid (r : Nat) : Prop := 1 ≤ r ∧ r < u32Bound

/-- A minimal extra `IstrRepr` instance with capacity one (only slot index 0 is
representable, stored as `index + 1` like the non-zero implementations).  The smallest
library representation, `NonZeroU32`, exhausts only after `2^32 - 2` insertions, which
no concrete witness can evaluate; this instance exhibits the identical exhaustion
behaviour immediately. -/
def tinyRepr : IstrRepr Nat where
  from_index index := if index < 1 then some (index + 1) else none
  to_index r := r - 1

/-- The value range of `tinyRepr`: only the identifier value 1 exists. -/
def tinyValid (r : Nat) : Prop := r = 1

namespace Intern32

/-- The fixed 32-bit `Istr` of `src/intern.rs`: `pub struct Istr(NonZeroU32)`.  The
field holds the `NonZeroU32` value. -/
structure Istr where
  n : Nat
deriving DecidableEq

/-- `Istr::from_index` of `src/intern.rs`: `u32::try_from(index).ok()? + 1` followed by
`NonZeroU32::new(n)?`.  The `+ 1` is a plain `u32` addition, which wraps at the `u32`
width (release overflow semantics), so `u32::MAX` maps to 0 and then to `None`. -/
def Istr.from_index (index : Nat) : Option Istr :=
  if index < u32Bound then
    (if (index + 1) % u32Bound = 0 then none else some ⟨(index + 1) % u32Bound⟩)
  else none

/-- `Istr::to_index` of `src/intern.rs`: `self.0.get() as usize - 1`. -/
def Istr.to_index (i : Istr) : Nat := i.n - 1

/-- The `Metadata` entry of `src/intern.rs`. -/
structure Metadata where
  interned : Istr
  hash : Nat
deriving DecidableEq

/-- The fixed 32-bit `Interner` of `src/intern.rs`: lookup table plus arena. -/
structure Interner where
  table : List Metadata
  arena : InternerArena

/-- `Interner::new` of `src/intern.rs`. -/
def Interner.new : Interner := ⟨[], []⟩

/-- The table probe of `src/intern.rs`, identical in shape to the generic one:
hash match plus re-verified string equality through the arena. -/
def Lookup.find (arena : InternerArena) (table : List Metadata) (hash : Nat)
    (key : String) : Option Metadata :=
  table.find? fun metadata =>
    metadata.hash == hash
      && InternerArena.get arena metadata.interned.to_index == some key

/-- `Interner::try_intern` of `src/intern.rs`. -/
def Interner.try_intern (st : Interner) (key : String) : Option Istr × Interner :=
  let hash := hash_one key
  match Lookup.find st.arena st.table hash key with
  | some metadata => (some metadata.interned, st)
  | none =>
      let pushed := InternerArena.push_str st.arena key
      match Istr.from_index pushed.1 with
      | none => (none, { st with arena := pushed.2 })
      | some interned =>
          (some interned, { table := st.table ++ [⟨interned, hash⟩], arena := pushed.2 })

/-- `Interner::intern` of `src/intern.rs`:
`self.try_intern(key).expect("too many interned strings")`. -/
def Interner.intern (st : Interner) (key : String) : Except String Istr × Interner :=
  match Interner.try_intern st key with
  | (some interned, st') => (Except.ok interned, st')
  | (none, st') => (Except.error "too many interned strings", st')

/-- `Interner::get_interned` of `src/intern.rs`. -/
def Interner.get_interned (st : Interner) (key : String) : Option Istr :=
  Option.map (fun metadata => metadata.interned)
    (Lookup.find st.arena st.table (hash_one key) key)

/-- `Interner::get_str` of `src/intern.rs`: `self.arena.get(interned.to_index())`. -/
def Interner.get_str (st : Interner) (interned : Istr) : Option String :=
  InternerArena.get st.arena interned.to_index

/-- The `Index<Istr>` impl of `src/intern.rs`. -/
def Interner.index (st : Interner) (interned : Istr) : Except String String :=
  match Interner.get_str st interned with
  | some s => Except.ok s
  | none => Except.error "string not in interner"

end Intern32

/-- Map a fixed 32-bit identifier to the width-generic identifier at the `NonZeroU32`
representation (same underlying integer). -/
def Istr32.toGeneric (i : Intern32.Istr) : Istr Nat := ⟨i.n⟩

/-- Map a fixed 32-bit lookup entry to the width-generic one. -/
def Metadata32.toGeneric (m : Intern32.Metadata) : Metadata Nat :=
  ⟨⟨m.interned.n⟩, m.hash⟩

/-- Map a fixed 32-bit interner state to the width-generic one at `NonZeroU32`. -/
def Interner32.toGeneric (st : Intern32.Interner) : Interner Nat :=
  ⟨st.table.map Metadata32.toGeneric, st.arena⟩

/-- Every table entry carries an identifier minted by `from_index` (so `from_index`
recovers it from its own `to_index`). -/
def MintInv {R : Type} (ops : IstrRepr R) (st : Interner R) : Prop :=
  ∀ m ∈ st.table, ops.from_index (ops.to_index m.interned.repr) = some m.interned.repr

/-- A family of `2^32 - 1` pairwise distinct strings (distinct lengths), enough to
fill the `NonZeroU32` representation completely. -/
def capKeys : List String :=
  (List.range (u32Bound - 1)).map fun n => String.mk (List.replicate n 'a')

/-- The `NonZeroU32` interner after interning all of `capKeys`: every one of the
`2^32 - 1` representable slot indices `0 .. 2^32 - 2` is occupied, so the arena's next
slot index `2^32 - 1` is no longer representable. -/
def capState : Interner Nat :=
  Interner.runIntern nonZeroU32Repr Interner.new capKeys

theorem find?_congr {α : Type} {p q : α → Bool} :
    ∀ {l : List α}, (∀ a ∈ l, p a = q a) → l.find? p = l.find? q
  | [], _ => rfl
  | a :: l, h => by
      have ha := h a (List.mem_cons_self a l)
      by_cases hp : p a
      · rw [List.find?_cons_of_pos _ hp, List.find?_cons_of_pos _ (ha ▸ hp)]
      · rw [List.find?_cons_of_neg _ hp, List.find?_cons_of_neg _ (ha ▸ hp)]
        exact find?_congr fun a ha' => h a (List.mem_cons_of_mem _ ha')

theorem arena_get_append_left {a ext : InternerArena} {i : Nat} (h : i < a.length) :
    InternerArena.get (a ++ ext) i = InternerArena.get a i := by
  simp [InternerArena.get, List.getElem?_append_left h]

theorem arena_get_lt_length {a : InternerArena} {i : Nat} {t : String}
    (h : InternerArena.get a i = some t) : i < a.length := by
  simp only [InternerArena.get, List.getElem?_eq_some_iff] at h
  exact h.1

theorem arena_get_mem {a : InternerArena} {i : Nat} {t : String}
    (h : InternerArena.get a i = some t) : t ∈ a :=
  List.getElem?_mem h

theorem find_arena_append {R : Type} (ops : IstrRepr R) {arena : InternerArena}
    {table : List (Metadata R)} (ext : InternerArena) (hash : Nat) (key : String)
    (hv : ∀ m ∈ table, ops.to_index m.interned.repr < arena.length) :
    Lookup.find ops (arena ++ ext) table hash key
      = Lookup.find ops arena table hash key := by
  unfold Lookup.find
  exact find?_congr fun m hm => by rw [arena_get_append_left (hv m hm)]

theorem find_spec {R : Type} {ops : IstrRepr R} {arena : InternerArena}
    {table : List (Metadata R)} {hash : Nat} {key : String} {m : Metadata R}
    (h : Lookup.find ops arena table hash key = some m) :
    m ∈ table ∧ m.hash = hash
      ∧ InternerArena.get arena (ops.to_index m.interned.repr) = some key := by
  have hmem := List.mem_of_find?_eq_some h
  have hp := List.find?_some h
  simp only [Bool.and_eq_true, beq_iff_eq] at hp
  exact ⟨hmem, hp.1, hp.2⟩

theorem find_none_iff {R : Type} {ops : IstrRepr R} {arena : InternerArena}
    {table : List (Metadata R)} {hash : Nat} {key : String} :
    Lookup.find ops arena table hash key = none
      ↔ ∀ m ∈ table, ¬ (m.hash = hash
          ∧ InternerArena.get arena (ops.to_index m.interned.repr) = some key) := by
  unfold Lookup.find
  rw [List.find?_eq_none]
  constructor
  · intro h m hm hc
    exact h m hm (by simp [hc.1, hc.2])
  · intro h m hm hc
    simp only [Bool.and_eq_true, beq_iff_eq] at hc
    exact h m hm ⟨hc.1, hc.2⟩

theorem find_none_of_not_mem {R : Type} (ops : IstrRepr R) {arena : InternerArena}
    (table : List (Metadata R)) (hash : Nat) {key : String} (h : key ∉ arena) :
    Lookup.find ops arena table hash key = none :=
  find_none_iff.mpr fun _ _ hc => h (arena_get_mem hc.2)

theorem try_intern_occupied {R : Type} {ops : IstrRepr R} {st : Interner R}
    {key : String} {m : Metadata R}
    (h : Lookup.find ops st.arena st.table (hash_one key) key = some m) :
    Interner.try_intern ops st key = (some m.interned, st) := by
  unfold Interner.try_intern
  dsimp only
  rw [h]

theorem try_intern_vacant_fail {R : Type} {ops : IstrRepr R} {st : Interner R}
    {key : String}
    (h : Lookup.find ops st.arena st.table (hash_one key) key = none)
    (hf : ops.from_index st.arena.length = none) :
    Interner.try_intern ops st key = (none, { st with arena := st.arena ++ [key] }) := by
  unfold Interner.try_intern InternerArena.push_str
  dsimp only
  rw [h, hf]

theorem try_intern_vacant_ok {R : Type} {ops : IstrRepr R} {st : Interner R}
    {key : String} {r : R}
    (h : Lookup.find ops st.arena st.table (hash_one key) key = none)
    (hf : ops.from_index st.arena.length = some r) :
    Interner.try_intern ops st key
      = (some ⟨r⟩, ⟨st.table ++ [⟨⟨r⟩, hash_one key⟩], st.arena ++ [key]⟩) := by
  unfold Interner.try_intern InternerArena.push_str
  dsimp only
  rw [h, hf]

theorem try_intern_cases {R : Type} (ops : IstrRepr R) (st : Interner R)
    (key : String) :
    (∃ m, Lookup.find ops st.arena st.table (hash_one key) key = some m
        ∧ Interner.try_intern ops st key = (some m.interned, st))
    ∨ (Lookup.find ops st.arena st.table (hash_one key) key = none
        ∧ ((ops.from_index st.arena.length = none
              ∧ Interner.try_intern ops st key
                  = (none, { st with arena := st.arena ++ [key] }))
           ∨ (∃ r, ops.from_index st.arena.length = some r
              ∧ Interner.try_intern ops st key
                  = (some ⟨r⟩,
                      ⟨st.table ++ [⟨⟨r⟩, hash_one key⟩], st.arena ++ [key]⟩)))) := by
  cases hfind : Lookup.find ops st.arena st.table (hash_one key) key with
  | some m => exact Or.inl ⟨m, rfl, try_intern_occupied hfind⟩
  | none =>
      refine Or.inr ⟨rfl, ?_⟩
      cases hidx : ops.from_index st.arena.length with
      | none => exact Or.inl ⟨rfl, try_intern_vacant_fail hfind hidx⟩
      | some r => exact Or.inr ⟨r, rfl, try_intern_vacant_ok hfind hidx⟩

theorem try_intern_arena {R : Type} (ops : IstrRepr R) (st : Interner R)
    (key : String) :
    ((Interner.try_intern ops st key).2).arena = st.arena
      ∨ ((Interner.try_intern ops st key).2).arena = st.arena ++ [key] := by
  rcases try_intern_cases ops st key with ⟨m, _, he⟩ | ⟨_, ⟨_, he⟩ | ⟨r, _, he⟩⟩ <;>
    rw [he] <;> simp

theorem goodState_new {R : Type} (ops : IstrRepr R) : GoodState ops Interner.new := by
  constructor
  · intro m hm
    cases hm
  · intro i r _ ht
    rcases ht with ⟨t, ht⟩
    simp [Interner.new, InternerArena.get] at ht

theorem tableInv_of_goodState {R : Type} {ops : IstrRepr R} {st : Interner R}
    (h : GoodState ops st) : TableInv ops st := by
  intro m hm
  rcases h.1 m hm with ⟨t, ht, _⟩
  exact arena_get_lt_length ht

theorem goodState_step {R : Type} {ops : IstrRepr R} (hri : ReprInv ops)
    {st : Interner R} (hg : GoodState ops st) (key : String) :
    GoodState ops (Interner.try_intern ops st key).2 := by
  rcases try_intern_cases ops st key with ⟨m, _, he⟩ | ⟨hfind, hrest⟩
  · rw [he]
    exact hg
  · have hv := tableInv_of_goodState hg
    rcases hrest with ⟨hidx, he⟩ | ⟨r, hidx, he⟩
    · rw [he]
      constructor
      · intro m hm
        rcases hg.1 m hm with ⟨t, ht, hh⟩
        exact ⟨t, by rw [arena_get_append_left (hv m hm)]; exact ht, hh⟩
      · intro i r hfi hocc
        rcases hocc with ⟨t, ht⟩
        rcases Nat.lt_or_ge i st.arena.length with hlt | hge
        · exact hg.2 i r hfi ⟨t, by rwa [arena_get_append_left hlt] at ht⟩
        · have : i = st.arena.length := by
            have := arena_get_lt_length ht
            simp at this
            omega
          rw [this] at hfi
          rw [hfi] at hidx
          cases hidx
    · rw [he]
      constructor
      · intro m hm
        rcases List.mem_append.1 hm with hold | hnew
        · rcases hg.1 m hold with ⟨t, ht, hh⟩
          exact ⟨t, by rw [arena_get_append_left (hv m hold)]; exact ht, hh⟩
        · have hm' : m = ⟨⟨r⟩, hash_one key⟩ := by
            cases hnew with
            | head => rfl
            | tail _ h => cases h
          subst hm'
          refine ⟨key, ?_, rfl⟩
          have : ops.to_index r = st.arena.length := hri _ _ hidx
          simp only [this, InternerArena.get]
          exact List.getElem?_concat_length st.arena key
      · intro i r' hfi hocc
        rcases hocc with ⟨t, ht⟩
        rcases Nat.lt_or_ge i st.arena.length with hlt | hge
        · rcases hg.2 i r' hfi ⟨t, by rwa [arena_get_append_left hlt] at ht⟩
            with ⟨m, hm, hmi⟩
          exact ⟨m, List.mem_append_left _ hm, hmi⟩
        · have hi : i = st.arena.length := by
            have := arena_get_lt_length ht
            simp at this
            omega
          refine ⟨⟨⟨r⟩, hash_one key⟩, List.mem_append_right _ (List.mem_singleton.2 rfl), ?_⟩
          rw [hi]
          exact hri _ _ hidx

theorem goodState_run {R : Type} {ops : IstrRepr R} (hri : ReprInv ops)
    {st : Interner R} (hg : GoodState ops st) (ks : List String) :
    GoodState ops (Interner.runIntern ops st ks) := by
  induction ks generalizing st with
  | nil => exact hg
  | cons k ks ih => exact ih (goodState_step hri hg k)

theorem find_stable_step {R : Type} {ops : IstrRepr R} {st : Interner R}
    (hg : GoodState ops st) (hash : Nat) (key : String) {m : Metadata R}
    (hfind : Lookup.find ops st.arena st.table hash key = some m) (k : String) :
    Lookup.find ops ((Interner.try_intern ops st k).2).arena
      ((Interner.try_intern ops st k).2).table hash key = some m := by
  have hv := tableInv_of_goodState hg
  rcases try_intern_cases ops st k with ⟨m', _, he⟩ | ⟨hf, ⟨hidx, he⟩ | ⟨r, hidx, he⟩⟩
  · rw [he]
    exact hfind
  · rw [he]
    dsimp only
    rw [find_arena_append ops [k] hash key hv]
    exact hfind
  · rw [he]
    dsimp only
    unfold Lookup.find at hfind ⊢
    rw [List.find?_append]
    have : List.find? (fun metadata =>
        metadata.hash == hash
          && InternerArena.get (st.arena ++ [k])
              (ops.to_index metadata.interned.repr) == some key) st.table = some m := by
      have := @find_arena_append R ops st.arena st.table [k] hash key hv
      unfold Lookup.find at this
      rw [this]
      exact hfind
    rw [this]
    rfl

theorem find_stable_run {R : Type} {ops : IstrRepr R} (hri : ReprInv ops)
    {st : Interner R} (hg : GoodState ops st) (hash : Nat) (key : String)
    {m : Metadata R}
    (hfind : Lookup.find ops st.arena st.table hash key = some m) (ks : List String) :
    Lookup.find ops (Interner.runIntern ops st ks).arena
      (Interner.runIntern ops st ks).table hash key = some m := by
  induction ks generalizing st with
  | nil => exact hfind
  | cons k ks ih =>
      exact ih (goodState_step hri hg k) (find_stable_step hg hash key hfind k)

theorem reprInv_nonZeroUsize : ReprInv nonZeroUsizeRepr := by
  intro n r h
  simp only [nonZeroUsizeRepr, usizeBound] at h ⊢
  split at h
  · split at h
    · cases h
    · cases h
      omega
  · cases h

theorem reprInv_nonZeroU64 : ReprInv nonZeroU64Repr := by
  intro n r h
  simp only [nonZeroU64Repr, usizeBound] at h ⊢
  split at h
  · split at h
    · cases h
    · cases h
      omega
  · cases h

theorem reprInv_nonZeroU32 : ReprInv nonZeroU32Repr := by
  intro n r h
  simp only [nonZeroU32Repr, u32Bound] at h ⊢
  split at h
  · split at h
    · cases h
    · cases h
      omega
  · cases h

theorem reprInv_usize : ReprInv usizeRepr := by
  intro n r h
  simp only [usizeRepr] at h ⊢
  cases h
  rfl

theorem reprInv_u64 : ReprInv u64Repr := by
  intro n r h
  simp only [u64Repr] at h ⊢
  split at h
  · cases h
    rfl
  · cases h

theorem reprInv_u32 : ReprInv u32Repr := by
  intro n r h
  simp only [u32Repr] at h ⊢
  split at h
  · cases h
    rfl
  · cases h

theorem reprInv_tiny : ReprInv tinyRepr := by
  intro n r h
  simp only [tinyRepr] at h ⊢
  split at h
  · cases h
    omega
  · cases h

theorem reprPlusOne_nonZeroUsize : ReprPlusOne nonZeroUsizeRepr := by
  intro n r h
  simp only [nonZeroUsizeRepr, usizeBound] at h
  split at h
  · split at h
    · cases h
    · cases h
      omega
  · cases h

theorem reprPlusOne_nonZeroU64 : ReprPlusOne nonZeroU64Repr := by
  intro n r h
  simp only [nonZeroU64Repr, usizeBound] at h
  split at h
  · split at h
    · cases h
    · cases h
      omega
  · cases h

theorem reprPlusOne_nonZeroU32 : ReprPlusOne nonZeroU32Repr := by
  intro n r h
  simp only [nonZeroU32Repr, u32Bound] at h
  split at h
  · split at h
    · cases h
    · cases h
      omega
  · cases h

theorem reprPlusOne_tiny : ReprPlusOne tinyRepr := by
  intro n r h
  simp only [tinyRepr] at h
  split at h
  · cases h
    rfl
  · cases h

theorem validFrom_nonZeroU32 :
    ∀ r, nonZeroU32Valid r →
      nonZeroU32Repr.from_index (nonZeroU32Repr.to_index r) = some r := by
  intro r hr
  rcases hr with ⟨h1, h2⟩
  simp only [nonZeroU32Repr, nonZeroU32Valid, u32Bound] at h2 ⊢
  have hlt : r - 1 < 2 ^ 32 := by omega
  rw [if_pos hlt]
  have : r - 1 + 1 = r := by omega
  rw [this]
  have hmod : r % 2 ^ 32 = r := Nat.mod_eq_of_lt h2
  rw [hmod, if_neg (by omega)]

theorem validFrom_tiny :
    ∀ r, tinyValid r → tinyRepr.from_index (tinyRepr.to_index r) = some r := by
  intro r hr
  subst hr
  rfl

theorem runIntern_cons {R : Type} (ops : IstrRepr R) (st : Interner R)
    (k : String) (ks : List String) :
    Interner.runIntern ops st (k :: ks)
      = Interner.runIntern ops (Interner.try_intern ops st k).2 ks := rfl

theorem arena_after_vacant {R : Type} {ops : IstrRepr R} {st : Interner R}
    {key : String}
    (h : Lookup.find ops st.arena st.table (hash_one key) key = none) :
    ((Interner.try_intern ops st key).2).arena = st.arena ++ [key] := by
  rcases try_intern_cases ops st key with ⟨m, hm, _⟩ | ⟨_, ⟨_, he⟩ | ⟨r, _, he⟩⟩
  · rw [h] at hm
    cases hm
  · rw [he]
  · rw [he]

theorem runIntern_arena_fresh {R : Type} (ops : IstrRepr R) :
    ∀ (ks : List String) (st : Interner R), ks.Nodup → (∀ k ∈ ks, k ∉ st.arena) →
      (Interner.runIntern ops st ks).arena = st.arena ++ ks
  | [], st, _, _ => by simp [Interner.runIntern]
  | k :: ks, st, hnd, hfresh => by
      rw [runIntern_cons]
      have hk : k ∉ st.arena := hfresh k (List.mem_cons_self k ks)
      have hvac := arena_after_vacant
        (find_none_of_not_mem ops st.table (hash_one k) hk)
      rw [runIntern_arena_fresh ops ks _ (List.Nodup.of_cons hnd) ?_, hvac]
      · simp
      · intro k' hk'
        rw [hvac]
        intro hmem
        rcases List.mem_append.1 hmem with h1 | h2
        · exact hfresh k' (List.mem_cons_of_mem _ hk') h1
        · rw [List.mem_singleton] at h2
          subst h2
          exact (List.nodup_cons.1 hnd).1 hk'

theorem mintInv_new {R : Type} (ops : IstrRepr R) : MintInv ops Interner.new := by
  intro m hm
  cases hm

theorem mintInv_step {R : Type} {ops : IstrRepr R} (hri : ReprInv ops)
    {st : Interner R} (hm : MintInv ops st) (key : String) :
    MintInv ops (Interner.try_intern ops st key).2 := by
  rcases try_intern_cases ops st key with ⟨m, _, he⟩ | ⟨_, ⟨_, he⟩ | ⟨r, hidx, he⟩⟩
  · rw [he]
    exact hm
  · rw [he]
    exact hm
  · rw [he]
    intro m' hm'
    rcases List.mem_append.1 hm' with hold | hnew
    · exact hm m' hold
    · have : m' = ⟨⟨r⟩, hash_one key⟩ := List.mem_singleton.1 hnew
      subst this
      have ht : ops.to_index r = st.arena.length := hri _ _ hidx
      dsimp only
      rw [ht]
      exact hidx

theorem mintInv_run {R : Type} {ops : IstrRepr R} (hri : ReprInv ops)
    {st : Interner R} (hm : MintInv ops st) (ks : List String) :
    MintInv ops (Interner.runIntern ops st ks) := by
  induction ks generalizing st with
  | nil => exact hm
  | cons k ks ih => exact ih (mintInv_step hri hm k)

theorem find_after_insert {R : Type} {ops : IstrRepr R} (hri : ReprInv ops)
    {st : Interner R} {s : String} {r : R} (hv : TableInv ops st)
    (hf : Lookup.find ops st.arena st.table (hash_one s) s = none)
    (hidx : ops.from_index st.arena.length = some r) :
    Lookup.find ops (st.arena ++ [s]) (st.table ++ [⟨⟨r⟩, hash_one s⟩])
      (hash_one s) s = some ⟨⟨r⟩, hash_one s⟩ := by
  have h1 : Lookup.find ops (st.arena ++ [s]) st.table (hash_one s) s = none := by
    rw [find_arena_append ops [s] (hash_one s) s hv]
    exact hf
  have ht : ops.to_index r = st.arena.length := hri _ _ hidx
  unfold Lookup.find at h1 ⊢
  rw [List.find?_append, h1]
  simp [InternerArena.get, ht, List.getElem?_concat_length]

/-- C1: for every string `s` and every interner state, a successful `try_intern`
(hence `intern`) of `s` returns an identifier that `get_str` dereferences back to `s`:
`get_str(intern(s)) == Some(s)`. -/
theorem C1_roundtrip {R : Type} (ops : IstrRepr R) (hri : ReprInv ops)
    (st st' : Interner R) (s : String) (id : Istr R)
    (h : Interner.try_intern ops st s = (some id, st')) :
    Interner.get_str ops st' id = some s := by
  rcases try_intern_cases ops st s with ⟨m, hm, he⟩ | ⟨hf, ⟨hidx, he⟩ | ⟨r, hidx, he⟩⟩
  · rw [he] at h
    simp only [Prod.mk.injEq] at h
    obtain ⟨h1, rfl⟩ := h
    obtain rfl := Option.some.inj h1
    exact (find_spec hm).2.2
  · rw [he] at h
    simp at h
  · rw [he] at h
    simp only [Prod.mk.injEq] at h
    obtain ⟨h1, rfl⟩ := h
    obtain rfl := Option.some.inj h1
    unfold Interner.get_str
    dsimp only
    rw [hri _ _ hidx]
    exact List.getElem?_concat_length st.arena s

/-- Witness for C1: interning "hello" into a fresh default-representation interner
yields identifier 1, and `get_str` maps it back to "hello". -/
theorem C1_roundtrip_witness :
    Interner.get_str nonZeroUsizeRepr
      (Interner.try_intern nonZeroUsizeRepr Interner.new "hello").2 ⟨1⟩
      = some "hello" :=
  C1_roundtrip nonZeroUsizeRepr reprInv_nonZeroUsize Interner.new
    (Interner.try_intern nonZeroUsizeRepr Interner.new "hello").2 "hello" ⟨1⟩ rfl

/-- C2: interning the same string twice on the same interner returns the same
identifier, no matter how many other strings are interned in between: if, after any
prefix of operations on a fresh interner, `try_intern s` returns `id`, then after any
further operations `try_intern s` still returns `id`. -/
theorem C2_intern_deterministic {R : Type} (ops : IstrRepr R) (hri : ReprInv ops)
    (pre mid : List String) (s : String) (id : Istr R)
    (h : (Interner.try_intern ops (Interner.runIntern ops Interner.new pre) s).1
        = some id) :
    (Interner.try_intern ops
        (Interner.runIntern ops
          (Interner.try_intern ops (Interner.runIntern ops Interner.new pre) s).2 mid)
        s).1 = some id := by
  have hg0 : GoodState ops (Interner.runIntern ops Interner.new pre) :=
    goodState_run hri (goodState_new ops) pre
  rcases try_intern_cases ops (Interner.runIntern ops Interner.new pre) s with
    ⟨m, hm, he⟩ | ⟨hf, ⟨hidx, he⟩ | ⟨r, hidx, he⟩⟩
  · rw [he] at h ⊢
    dsimp only at h ⊢
    have hstable := find_stable_run hri hg0 (hash_one s) s hm mid
    rw [try_intern_occupied hstable]
    exact h
  · rw [he] at h
    simp at h
  · rw [he] at h ⊢
    dsimp only at h ⊢
    obtain rfl := Option.some.inj h
    have hg1 : GoodState ops
        (⟨(Interner.runIntern ops Interner.new pre).table ++ [⟨⟨r⟩, hash_one s⟩],
          (Interner.runIntern ops Interner.new pre).arena ++ [s]⟩ : Interner R) := by
      have := goodState_step hri hg0 s
      rw [he] at this
      exact this
    have hnew := find_after_insert hri (tableInv_of_goodState hg0) hf hidx
    have hstable := find_stable_run hri hg1 (hash_one s) s hnew mid
    rw [try_intern_occupied hstable]

/-- Witness for C2: intern "a" into a fresh default-representation interner (getting
identifier 1), intern "b" and "c", then intern "a" again: still identifier 1. -/
theorem C2_intern_deterministic_witness :
    (Interner.try_intern nonZeroUsizeRepr
        (Interner.runIntern nonZeroUsizeRepr
          (Interner.try_intern nonZeroUsizeRepr
            (Interner.runIntern nonZeroUsizeRepr Interner.new []) "a").2
          ["b", "c"]) "a").1 = some ⟨1⟩ :=
  C2_intern_deterministic nonZeroUsizeRepr reprInv_nonZeroUsize [] ["b", "c"] "a"
    ⟨1⟩ rfl

/-- C3 (amended): `intern` fails fatally with "too many interned strings" exactly when
`try_intern` returns `None`, which happens exactly when the string is not already
interned (the table probe misses) and the arena's next slot index cannot be
represented in the configured identifier width; otherwise `intern` returns exactly the
identifier `try_intern` returns, and both leave the same state. -/
theorem C3_failure_mode {R : Type} (ops : IstrRepr R) (st : Interner R) (s : String) :
    ((Interner.intern ops st s).1 = Except.error "too many interned strings"
        ↔ (Interner.try_intern ops st s).1 = none)
    ∧ ((Interner.try_intern ops st s).1 = none
        ↔ Lookup.find ops st.arena st.table (hash_one s) s = none
          ∧ ops.from_index st.arena.length = none)
    ∧ (∀ id : Istr R, (Interner.intern ops st s).1 = Except.ok id
        ↔ (Interner.try_intern ops st s).1 = some id)
    ∧ (Interner.intern ops st s).2 = (Interner.try_intern ops st s).2 := by
  rcases try_intern_cases ops st s with ⟨m, hm, he⟩ | ⟨hf, ⟨hidx, he⟩ | ⟨r, hidx, he⟩⟩
  · refine ⟨?_, ?_, ?_, ?_⟩ <;>
      simp [Interner.intern, he, hm]
  · refine ⟨?_, ?_, ?_, ?_⟩ <;>
      simp [Interner.intern, he, hf, hidx]
  · refine ⟨?_, ?_, ?_, ?_⟩ <;>
      simp [Interner.intern, he, hf, hidx]

/-- C4 counterexample: with the plain `usize` representation (one of the provided
`IstrRepr` implementations), interning the first string into a fresh interner mints
the identifier whose stored integer is 0 — the string sits at slot 0 and the stored
value is neither strictly positive nor equal to the slot index plus one. -/
theorem C4_counterexample :
    (Interner.try_intern usizeRepr Interner.new "a").1 = some ⟨0⟩
    ∧ ((Interner.try_intern usizeRepr Interner.new "a").2).arena = ["a"]
    ∧ ¬ (0 < (0 : Nat) ∧ (0 : Nat) = 0 + 1) :=
  ⟨rfl, rfl, by decide⟩

/-- C4 (amended): for the strictly-positive (`NonZero`) representations — including
the default `NonZeroUsize` — every identifier a reachable interner hands out stores
the slot index of its string plus one, so it is strictly positive and dereferencing
slot `value - 1` yields the interned string.  (The plain `usize`/`u64`/`u32`
representations instead store the slot index itself and do mint the zero value.) -/
theorem C4_nonzero_invariant (ops : IstrRepr Nat) (hri : ReprInv ops)
    (hp : ReprPlusOne ops) (ks : List String) (s : String) (id : Istr Nat)
    (st' : Interner Nat)
    (h : Interner.try_intern ops (Interner.runIntern ops Interner.new ks) s
        = (some id, st')) :
    0 < id.repr ∧ InternerArena.get st'.arena (id.repr - 1) = some s := by
  have hmint : MintInv ops (Interner.runIntern ops Interner.new ks) :=
    mintInv_run hri (mintInv_new ops) ks
  rcases try_intern_cases ops (Interner.runIntern ops Interner.new ks) s with
    ⟨m, hm, he⟩ | ⟨hf, ⟨hidx, he⟩ | ⟨r, hidx, he⟩⟩
  · rw [he] at h
    simp only [Prod.mk.injEq] at h
    obtain ⟨h1, rfl⟩ := h
    obtain rfl := Option.some.inj h1
    have hfi := hmint m (find_spec hm).1
    have hval := hp _ _ hfi
    constructor
    · omega
    · have hget := (find_spec hm).2.2
      have : ops.to_index m.interned.repr = m.interned.repr - 1 := by omega
      rw [this] at hget
      exact hget
  · rw [he] at h
    simp at h
  · rw [he] at h
    simp only [Prod.mk.injEq] at h
    obtain ⟨h1, rfl⟩ := h
    obtain rfl := Option.some.inj h1
    have hval := hp _ _ hidx
    constructor
    · show 0 < r
      omega
    · show InternerArena.get
          ((Interner.runIntern ops Interner.new ks).arena ++ [s]) (r - 1) = some s
      have hlen : r - 1 = (Interner.runIntern ops Interner.new ks).arena.length := by
        omega
      rw [hlen]
      exact List.getElem?_concat_length _ s

/-- Witness for C4 (amended): interning "a" into a fresh default-representation
interner yields stored value 1, which is positive, and slot `1 - 1 = 0` holds "a". -/
theorem C4_nonzero_invariant_witness :
    0 < (1 : Nat)
    ∧ InternerArena.get
        ((Interner.try_intern nonZeroUsizeRepr Interner.new "a").2).arena (1 - 1)
        = some "a" :=
  C4_nonzero_invariant nonZeroUsizeRepr reprInv_nonZeroUsize reprPlusOne_nonZeroUsize
    [] "a" ⟨1⟩ (Interner.try_intern nonZeroUsizeRepr Interner.new "a").2 rfl

/-- C8: `get_str(id)` returns `None` exactly when `id`'s slot index is out of range of
this interner's arena, and otherwise `Some` of the string stored at that slot; and
indexing (`index_by`) fails fatally in exactly the cases where `get_str` returns
`None`, otherwise returning the same string. -/
theorem C8_dereference_miss {R : Type} (ops : IstrRepr R) (st : Interner R)
    (id : Istr R) :
    (Interner.get_str ops st id = none ↔ st.arena.length ≤ ops.to_index id.repr)
    ∧ (∀ s, Interner.get_str ops st id = some s
        ↔ InternerArena.get st.arena (ops.to_index id.repr) = some s)
    ∧ (Interner.index ops st id = Except.error "string not in interner"
        ↔ Interner.get_str ops st id = none)
    ∧ (∀ s, Interner.index ops st id = Except.ok s
        ↔ Interner.get_str ops st id = some s) := by
  refine ⟨?_, fun s => Iff.rfl, ?_, ?_⟩
  · simp [Interner.get_str, InternerArena.get]
  · unfold Interner.index
    cases h : Interner.get_str ops st id <;> simp
  · intro s
    unfold Interner.index
    cases h : Interner.get_str ops st id <;> simp

/-- C5: for every representation and every `usize` index, `from_index` fails exactly
at the indices the representation cannot represent (never, for `usize`/`u64`; at and
above `2^32` for `u32`; additionally at the all-ones index for the `NonZero` types,
whose stored value `index + 1` would wrap to zero), and whenever `from_index` succeeds
`to_index` returns the original index. -/
theorem C5_conversions (index : Nat) (h : index < usizeBound) : ReprSpecAt index := by
  have hb : (usizeBound : Nat) = 2 ^ 64 := rfl
  have h32 : (u32Bound : Nat) = 2 ^ 32 := rfl
  refine ⟨?_, ?_, ?_, ?_, ?_, ?_, ?_, ?_, ?_, ?_, ?_, ?_⟩
  · simp only [nonZeroUsizeRepr, hb] at h ⊢
    rw [if_pos h]
    by_cases hc : (index + 1) % 2 ^ 64 = 0
    · rw [if_pos hc]
      exact ⟨fun _ => (by omega), fun _ => rfl⟩
    · rw [if_neg hc]
      exact ⟨(fun hx => by cases hx), fun hx => (hc (by omega)).elim⟩
  · unfold FromToAt
    simp only [nonZeroUsizeRepr, hb] at h ⊢
    rw [if_pos h]
    by_cases hc : (index + 1) % 2 ^ 64 = 0
    · rw [if_pos hc]
      exact trivial
    · rw [if_neg hc]
      show (index + 1) % 2 ^ 64 - 1 = index
      omega
  · simp only [nonZeroU64Repr, hb] at h ⊢
    rw [if_pos h]
    by_cases hc : (index + 1) % 2 ^ 64 = 0
    · rw [if_pos hc]
      exact ⟨fun _ => (by omega), fun _ => rfl⟩
    · rw [if_neg hc]
      exact ⟨(fun hx => by cases hx), fun hx => (hc (by omega)).elim⟩
  · unfold FromToAt
    simp only [nonZeroU64Repr, hb] at h ⊢
    rw [if_pos h]
    by_cases hc : (index + 1) % 2 ^ 64 = 0
    · rw [if_pos hc]
      exact trivial
    · rw [if_neg hc]
      show (index + 1) % 2 ^ 64 - 1 = index
      omega
  · simp only [nonZeroU32Repr, h32] at h ⊢
    by_cases h2 : index < 2 ^ 32
    · rw [if_pos h2]
      by_cases hc : (index + 1) % 2 ^ 32 = 0
      · rw [if_pos hc]
        exact ⟨fun _ => (by omega), fun _ => rfl⟩
      · rw [if_neg hc]
        exact ⟨(fun hx => by cases hx), fun hx => (hc (by omega)).elim⟩
    · rw [if_neg h2]
      exact ⟨fun _ => (by omega), fun _ => rfl⟩
  · unfold FromToAt
    simp only [nonZeroU32Repr, h32] at h ⊢
    by_cases h2 : index < 2 ^ 32
    · rw [if_pos h2]
      by_cases hc : (index + 1) % 2 ^ 32 = 0
      · rw [if_pos hc]
        exact trivial
      · rw [if_neg hc]
        show (index + 1) % 2 ^ 32 - 1 = index
        omega
    · rw [if_neg h2]
      exact trivial
  · exact ⟨(fun hx => by cases hx), fun hx => hx.elim⟩
  · exact rfl
  · simp only [u64Repr, hb] at h ⊢
    rw [if_pos h]
    exact ⟨(fun hx => by cases hx), fun hx => hx.elim⟩
  · unfold FromToAt
    simp only [u64Repr, hb] at h ⊢
    rw [if_pos h]
    exact rfl
  · simp only [u32Repr, h32] at h ⊢
    by_cases h2 : index < 2 ^ 32
    · rw [if_pos h2]
      exact ⟨(fun hx => by cases hx), (fun hx => by omega)⟩
    · rw [if_neg h2]
      exact ⟨fun _ => (by omega), fun _ => rfl⟩
  · unfold FromToAt
    simp only [u32Repr, h32] at h ⊢
    by_cases h2 : index < 2 ^ 32
    · rw [if_pos h2]
      exact rfl
    · rw [if_neg h2]
      exact trivial

/-- Witness for C5 at index 42 (a valid `usize`). -/
theorem C5_conversions_witness : 42 < usizeBound ∧ ReprSpecAt 42 :=
  ⟨by decide, C5_conversions 42 (by decide)⟩

theorem runIntern'_fresh {R : Type} (ops : IstrRepr R) (hri : ReprInv ops) :
    ∀ (ks : List String) (st : Interner R), ks.Nodup → (∀ k ∈ ks, k ∉ st.arena) →
      (∀ o ∈ (Interner.runIntern' ops st ks).1, Option.isSome o = true) →
      List.map (Option.map fun id => ops.to_index id.repr)
          (Interner.runIntern' ops st ks).1
        = List.map some (List.range' st.arena.length ks.length)
  | [], st, _, _, _ => rfl
  | k :: ks, st, hnd, hfresh, hsome => by
      have hk : k ∉ st.arena := hfresh k (List.mem_cons_self k ks)
      have hf := find_none_of_not_mem ops st.table (hash_one k) hk
      cases hidx : ops.from_index st.arena.length with
      | none =>
          exfalso
          have he := try_intern_vacant_fail hf hidx
          have h0 : (Interner.runIntern' ops st (k :: ks)).1
              = none :: (Interner.runIntern' ops
                  { st with arena := st.arena ++ [k] } ks).1 := by
            simp only [Interner.runIntern', he]
          have := hsome none (by rw [h0]; exact List.mem_cons_self _ _)
          simp at this
      | some r =>
          have he := try_intern_vacant_ok hf hidx
          have hst2 : (Interner.try_intern ops st k).2
              = ⟨st.table ++ [⟨⟨r⟩, hash_one k⟩], st.arena ++ [k]⟩ := by rw [he]
          have h0 : (Interner.runIntern' ops st (k :: ks)).1
              = some ⟨r⟩ :: (Interner.runIntern' ops
                  (⟨st.table ++ [⟨⟨r⟩, hash_one k⟩], st.arena ++ [k]⟩ : Interner R)
                  ks).1 := by
            simp only [Interner.runIntern', he]
          rw [h0]
          have hrec := runIntern'_fresh ops hri ks
            (⟨st.table ++ [⟨⟨r⟩, hash_one k⟩], st.arena ++ [k]⟩ : Interner R)
            (List.Nodup.of_cons hnd) ?_ ?_
          · rw [List.length_cons, List.range'_succ, List.map_cons, List.map_cons]
            refine congrArg₂ _ ?_ ?_
            · exact congrArg some (hri _ _ hidx)
            · rw [hrec]
              have : (st.arena ++ [k]).length = st.arena.length + 1 := by simp
              rw [this]
          · intro k' hk'
            dsimp only
            intro hmem
            rcases List.mem_append.1 hmem with h1 | h2
            · exact hfresh k' (List.mem_cons_of_mem _ hk') h1
            · rw [List.mem_singleton] at h2
              subst h2
              exact (List.nodup_cons.1 hnd).1 hk'
          · intro o ho
            refine hsome o ?_
            rw [h0]
            exact List.mem_cons_of_mem _ ho

/-- C6: interning `n` pairwise distinct strings into a fresh interner, with every
insertion succeeding, yields identifiers whose underlying indices are exactly
`0, 1, ..., n-1` in insertion order (hence assigned in strictly increasing order of
first sight). -/
theorem C6_monotonic {R : Type} (ops : IstrRepr R) (hri : ReprInv ops)
    (ks : List String) (hnd : ks.Nodup)
    (hall : ∀ o ∈ (Interner.runIntern' ops Interner.new ks).1,
        Option.isSome o = true) :
    List.map (Option.map fun id => ops.to_index id.repr)
        (Interner.runIntern' ops Interner.new ks).1
      = List.map some (List.range ks.length) := by
  rw [List.range_eq_range']
  have h0 : (Interner.new : Interner R).arena.length = 0 := rfl
  have := runIntern'_fresh ops hri ks Interner.new hnd ?_ hall
  · rw [this, h0]
  · intro k _ hmem
    simp [Interner.new] at hmem

/-- Witness for C6: interning the distinct strings "a", "b" into a fresh
default-representation interner yields indices 0 and 1 in order. -/
theorem C6_monotonic_witness :
    List.map (Option.map fun id => nonZeroUsizeRepr.to_index id.repr)
        (Interner.runIntern' nonZeroUsizeRepr Interner.new ["a", "b"]).1
      = List.map some (List.range 2) :=
  C6_monotonic nonZeroUsizeRepr reprInv_nonZeroUsize ["a", "b"] (by decide) (by decide)

/-- C7: when `try_intern` fails (returns `None`) because the representation is
exhausted, every previously interned string remains valid and resolvable:
`get_interned` still returns its identifier and `get_str` on that identifier still
returns the string. -/
theorem C7_exhaustion_preserves {R : Type} (ops : IstrRepr R) (st st' : Interner R)
    (s : String) (hv : TableInv ops st)
    (hfail : Interner.try_intern ops st s = (none, st'))
    (t : String) (id : Istr R)
    (hprev : Interner.get_interned ops st t = some id) :
    Interner.get_interned ops st' t = some id
      ∧ Interner.get_str ops st' id = some t := by
  rcases try_intern_cases ops st s with ⟨m, hm, he⟩ | ⟨hf, ⟨hidx, he⟩ | ⟨r, hidx, he⟩⟩
  · rw [he] at hfail
    simp at hfail
  · rw [he] at hfail
    simp only [Prod.mk.injEq] at hfail
    obtain ⟨-, rfl⟩ := hfail
    unfold Interner.get_interned at hprev ⊢
    obtain ⟨m, hfm, hmi⟩ := Option.map_eq_some'.1 hprev
    constructor
    · show Option.map _ (Lookup.find ops (st.arena ++ [s]) st.table (hash_one t) t)
        = some id
      rw [find_arena_append ops [s] (hash_one t) t hv, hfm]
      exact congrArg (Option.map _) rfl ▸ (by rw [hfm] at hprev; exact hprev)
    · have hget := (find_spec hfm).2.2
      have hlt := arena_get_lt_length hget
      show InternerArena.get (st.arena ++ [s]) (ops.to_index id.repr) = some t
      rw [← hmi]
      rw [arena_get_append_left hlt]
      exact hget
  · rw [he] at hfail
    simp at hfail

/-- Witness for C7, using a capacity-one representation of the same `index + 1` shape
as the library's `NonZero` widths: intern "a" (filling capacity), fail to intern "b",
and observe that "a" still resolves both ways. -/
theorem C7_exhaustion_preserves_witness :
    Interner.get_interned tinyRepr
        (Interner.try_intern tinyRepr
          (Interner.try_intern tinyRepr Interner.new "a").2 "b").2 "a" = some ⟨1⟩
    ∧ Interner.get_str tinyRepr
        (Interner.try_intern tinyRepr
          (Interner.try_intern tinyRepr Interner.new "a").2 "b").2 ⟨1⟩ = some "a" :=
  C7_exhaustion_preserves tinyRepr
    (Interner.try_intern tinyRepr Interner.new "a").2
    (Interner.try_intern tinyRepr
      (Interner.try_intern tinyRepr Interner.new "a").2 "b").2
    "b" (by unfold TableInv; decide) rfl "a" ⟨1⟩ (by decide)

theorem try_intern32_occupied {st : Intern32.Interner} {key : String}
    {m : Intern32.Metadata}
    (h : Intern32.Lookup.find st.arena st.table (hash_one key) key = some m) :
    Intern32.Interner.try_intern st key = (some m.interned, st) := by
  unfold Intern32.Interner.try_intern
  dsimp only
  rw [h]

theorem try_intern32_vacant_fail {st : Intern32.Interner} {key : String}
    (h : Intern32.Lookup.find st.arena st.table (hash_one key) key = none)
    (hf : Intern32.Istr.from_index st.arena.length = none) :
    Intern32.Interner.try_intern st key
      = (none, { st with arena := st.arena ++ [key] }) := by
  unfold Intern32.Interner.try_intern InternerArena.push_str
  dsimp only
  rw [h, hf]

theorem try_intern32_vacant_ok {st : Intern32.Interner} {key : String}
    {interned : Intern32.Istr}
    (h : Intern32.Lookup.find st.arena st.table (hash_one key) key = none)
    (hf : Intern32.Istr.from_index st.arena.length = some interned) :
    Intern32.Interner.try_intern st key
      = (some interned,
          ⟨st.table ++ [⟨interned, hash_one key⟩], st.arena ++ [key]⟩) := by
  unfold Intern32.Interner.try_intern InternerArena.push_str
  dsimp only
  rw [h, hf]

theorem from_index_corr (index : Nat) :
    Option.map Istr32.toGeneric (Intern32.Istr.from_index index)
      = Option.map (fun r => (⟨r⟩ : Istr Nat)) (nonZeroU32Repr.from_index index) := by
  simp only [Intern32.Istr.from_index, nonZeroU32Repr]
  by_cases h1 : index < u32Bound
  · rw [if_pos h1, if_pos h1]
    by_cases h2 : (index + 1) % u32Bound = 0
    · rw [if_pos h2, if_pos h2]
      rfl
    · rw [if_neg h2, if_neg h2]
      rfl
  · rw [if_neg h1, if_neg h1]
    rfl

theorem find_corr (st : Intern32.Interner) (hash : Nat) (key : String) :
    Option.map Metadata32.toGeneric (Intern32.Lookup.find st.arena st.table hash key)
      = Lookup.find nonZeroU32Repr (Interner32.toGeneric st).arena
          (Interner32.toGeneric st).table hash key := by
  unfold Intern32.Lookup.find Lookup.find Interner32.toGeneric
  dsimp only
  rw [List.find?_map]
  rfl

/-- C9: the fixed 32-bit interner of `src/intern.rs` and the width-generic interner of
`src/interner.rs` instantiated at the `NonZeroU32` representation behave identically:
on corresponding states they return corresponding identifiers (equal underlying
integers) and states from `try_intern` and `intern` (including identical
success/failure outcomes at capacity), the same lookups from `get_interned`, and the
same strings from `get_str` and indexing; hence corresponding runs stay in
correspondence for every sequence of operations. -/
theorem C9_equivalence (st : Intern32.Interner) (key : String) (i : Intern32.Istr) :
    Option.map Istr32.toGeneric (Intern32.Interner.try_intern st key).1
        = (Interner.try_intern nonZeroU32Repr (Interner32.toGeneric st) key).1
    ∧ Interner32.toGeneric (Intern32.Interner.try_intern st key).2
        = (Interner.try_intern nonZeroU32Repr (Interner32.toGeneric st) key).2
    ∧ Option.map Istr32.toGeneric (Intern32.Interner.get_interned st key)
        = Interner.get_interned nonZeroU32Repr (Interner32.toGeneric st) key
    ∧ Intern32.Interner.get_str st i
        = Interner.get_str nonZeroU32Repr (Interner32.toGeneric st)
            (Istr32.toGeneric i)
    ∧ Except.map Istr32.toGeneric (Intern32.Interner.intern st key).1
        = (Interner.intern nonZeroU32Repr (Interner32.toGeneric st) key).1
    ∧ Interner32.toGeneric (Intern32.Interner.intern st key).2
        = (Interner.intern nonZeroU32Repr (Interner32.toGeneric st) key).2
    ∧ Intern32.Interner.index st i
        = Interner.index nonZeroU32Repr (Interner32.toGeneric st)
            (Istr32.toGeneric i) := by
  have hab : Option.map Istr32.toGeneric (Intern32.Interner.try_intern st key).1
        = (Interner.try_intern nonZeroU32Repr (Interner32.toGeneric st) key).1
      ∧ Interner32.toGeneric (Intern32.Interner.try_intern st key).2
        = (Interner.try_intern nonZeroU32Repr (Interner32.toGeneric st) key).2 := by
    cases hf : Intern32.Lookup.find st.arena st.table (hash_one key) key with
    | some m =>
        have hg : Lookup.find nonZeroU32Repr (Interner32.toGeneric st).arena
            (Interner32.toGeneric st).table (hash_one key) key
            = some (Metadata32.toGeneric m) := by
          rw [← find_corr st (hash_one key) key, hf]
          rfl
        rw [try_intern32_occupied hf, try_intern_occupied hg]
        exact ⟨rfl, rfl⟩
    | none =>
        have hg : Lookup.find nonZeroU32Repr (Interner32.toGeneric st).arena
            (Interner32.toGeneric st).table (hash_one key) key = none := by
          rw [← find_corr st (hash_one key) key, hf]
          rfl
        have hcorr := from_index_corr st.arena.length
        cases hidx : Intern32.Istr.from_index st.arena.length with
        | none =>
            have hgidx : nonZeroU32Repr.from_index
                ((Interner32.toGeneric st).arena.length) = none := by
              rw [hidx] at hcorr
              cases hx : nonZeroU32Repr.from_index st.arena.length with
              | none => exact hx
              | some v =>
                  rw [hx] at hcorr
                  cases hcorr
            rw [try_intern32_vacant_fail hf hidx, try_intern_vacant_fail hg hgidx]
            exact ⟨rfl, rfl⟩
        | some i32 =>
            have hgidx : nonZeroU32Repr.from_index
                ((Interner32.toGeneric st).arena.length) = some i32.n := by
              rw [hidx] at hcorr
              cases hx : nonZeroU32Repr.from_index st.arena.length with
              | none =>
                  rw [hx] at hcorr
                  cases hcorr
              | some v =>
                  rw [hx] at hcorr
                  obtain h1 := Option.some.inj hcorr
                  have : i32.n = v := congrArg Istr.repr h1
                  rw [this]
                  exact hx
            rw [try_intern32_vacant_ok hf hidx, try_intern_vacant_ok hg hgidx]
            constructor
            · rfl
            · show Interner32.toGeneric
                  ⟨st.table ++ [⟨i32, hash_one key⟩], st.arena ++ [key]⟩
                = ⟨(Interner32.toGeneric st).table
                    ++ [⟨⟨i32.n⟩, hash_one key⟩], st.arena ++ [key]⟩
              unfold Interner32.toGeneric
              rw [List.map_append]
              rfl
  have hd : Intern32.Interner.get_str st i
      = Interner.get_str nonZeroU32Repr (Interner32.toGeneric st)
          (Istr32.toGeneric i) := rfl
  have hc : Option.map Istr32.toGeneric (Intern32.Interner.get_interned st key)
      = Interner.get_interned nonZeroU32Repr (Interner32.toGeneric st) key := by
    unfold Intern32.Interner.get_interned Interner.get_interned
    rw [← find_corr st (hash_one key) key]
    cases Intern32.Lookup.find st.arena st.table (hash_one key) key <;> rfl
  have hef : Except.map Istr32.toGeneric (Intern32.Interner.intern st key).1
        = (Interner.intern nonZeroU32Repr (Interner32.toGeneric st) key).1
      ∧ Interner32.toGeneric (Intern32.Interner.intern st key).2
        = (Interner.intern nonZeroU32Repr (Interner32.toGeneric st) key).2 := by
    unfold Intern32.Interner.intern Interner.intern
    obtain ⟨ha, hb⟩ := hab
    cases h32 : Intern32.Interner.try_intern st key with
    | mk o st2 =>
        cases hgen : Interner.try_intern nonZeroU32Repr (Interner32.toGeneric st) key
          with
        | mk og stg =>
            rw [h32, hgen] at ha hb
            dsimp only at ha hb
            cases o with
            | none =>
                cases og with
                | none => exact ⟨rfl, hb⟩
                | some v => cases ha
            | some v =>
                cases og with
                | none => cases ha
                | some w =>
                    obtain rfl := Option.some.inj ha
                    exact ⟨rfl, hb⟩
  have hg2 : Intern32.Interner.index st i
      = Interner.index nonZeroU32Repr (Interner32.toGeneric st)
          (Istr32.toGeneric i) := by
    unfold Intern32.Interner.index Interner.index
    rw [hd]
  exact ⟨hab.1, hab.2, hc, hd, hef.1, hef.2, hg2⟩

/-- C10: a failed `try_intern` of a novel string `s` is not atomic.  The lookup table
is unchanged — `get_interned s` still misses and no valid identifier of the
representation dereferences to `s` — but the arena has already been extended with `s`,
so its slot index is consumed: any subsequent successful fresh insertion receives the
index one past the arena length at the time of the failure, skipping the consumed
slot. -/
theorem C10_nonatomic {R : Type} (ops : IstrRepr R) (valid : R → Prop)
    (hri : ReprInv ops)
    (hvf : ∀ r, valid r → ops.from_index (ops.to_index r) = some r)
    (ks : List String) (s : String) (st' : Interner R)
    (hfail : Interner.try_intern ops (Interner.runIntern ops Interner.new ks) s
        = (none, st')) :
    st'.table = (Interner.runIntern ops Interner.new ks).table
    ∧ st'.arena = (Interner.runIntern ops Interner.new ks).arena ++ [s]
    ∧ Interner.get_interned ops st' s = none
    ∧ (∀ r, valid r → ¬ Interner.get_str ops st' ⟨r⟩ = some s)
    ∧ (∀ (t : String) (id : Istr R) (st'' : Interner R),
        Interner.get_interned ops st' t = none →
        Interner.try_intern ops st' t = (some id, st'') →
        ops.to_index id.repr
          = (Interner.runIntern ops Interner.new ks).arena.length + 1) := by
  have hg : GoodState ops (Interner.runIntern ops Interner.new ks) :=
    goodState_run hri (goodState_new ops) ks
  have hv := tableInv_of_goodState hg
  rcases try_intern_cases ops (Interner.runIntern ops Interner.new ks) s with
    ⟨m, hm, he⟩ | ⟨hf, ⟨hidx, he⟩ | ⟨r, hidx, he⟩⟩
  · rw [he] at hfail
    simp at hfail
  · rw [he] at hfail
    simp only [Prod.mk.injEq] at hfail
    obtain ⟨-, rfl⟩ := hfail
    refine ⟨rfl, rfl, ?_, ?_, ?_⟩
    · unfold Interner.get_interned
      show Option.map _ (Lookup.find ops
          ((Interner.runIntern ops Interner.new ks).arena ++ [s])
          (Interner.runIntern ops Interner.new ks).table (hash_one s) s) = none
      rw [find_arena_append ops [s] (hash_one s) s hv, hf]
      rfl
    · intro r hr hget
      have hfi := hvf r hr
      show False
      have hget' : InternerArena.get
          ((Interner.runIntern ops Interner.new ks).arena ++ [s])
          (ops.to_index r) = some s := hget
      rcases Nat.lt_trichotomy (ops.to_index r)
          (Interner.runIntern ops Interner.new ks).arena.length with hlt | heq | hgt
      · rw [arena_get_append_left hlt] at hget'
        obtain ⟨m, hmem, hmi⟩ := hg.2 (ops.to_index r) r hfi ⟨s, hget'⟩
        obtain ⟨t, ht, hh⟩ := hg.1 m hmem
        rw [hmi] at ht
        obtain rfl := Option.some.inj (ht.symm.trans hget')
        exact (find_none_iff.1 hf) m hmem ⟨hh, by rw [hmi]; exact ht⟩
      · rw [heq] at hfi
        rw [hfi] at hidx
        cases hidx
      · have hlen : ((Interner.runIntern ops Interner.new ks).arena ++ [s]).length
            ≤ ops.to_index r := by
          simp
          omega
        rw [InternerArena.get, List.getElem?_eq_none hlen] at hget'
        cases hget'
    · intro t id st'' hgi htry
      have hfind : Lookup.find ops
          ((Interner.runIntern ops Interner.new ks).arena ++ [s])
          (Interner.runIntern ops Interner.new ks).table (hash_one t) t = none := by
        unfold Interner.get_interned at hgi
        exact Option.map_eq_none'.1 hgi
      rcases try_intern_cases ops
          ({ table := (Interner.runIntern ops Interner.new ks).table,
             arena := (Interner.runIntern ops Interner.new ks).arena ++ [s] }
            : Interner R) t with
        ⟨m', hm', he'⟩ | ⟨hf', ⟨hidx', he'⟩ | ⟨r', hidx', he'⟩⟩
      · rw [hm'] at hfind
        cases hfind
      · rw [he'] at htry
        simp at htry
      · rw [he'] at htry
        simp only [Prod.mk.injEq] at htry
        obtain ⟨h1, -⟩ := htry
        obtain rfl := Option.some.inj h1
        have := hri _ _ hidx'
        show ops.to_index r'
          = (Interner.runIntern ops Interner.new ks).arena.length + 1
        rw [this]
        simp
  · rw [he] at hfail
    simp at hfail

/-- Witness for C10, using the capacity-one representation: after interning "a", a
failed intern of "b" leaves the table without "b" (lookup misses, no valid identifier
resolves to "b") while the arena holds both strings. -/
theorem C10_nonatomic_witness :
    ((Interner.try_intern tinyRepr
        (Interner.runIntern tinyRepr Interner.new ["a"]) "b").2).arena
      = (Interner.runIntern tinyRepr Interner.new ["a"]).arena ++ ["b"]
    ∧ Interner.get_interned tinyRepr
        (Interner.try_intern tinyRepr
          (Interner.runIntern tinyRepr Interner.new ["a"]) "b").2 "b" = none
    ∧ ¬ Interner.get_str tinyRepr
        (Interner.try_intern tinyRepr
          (Interner.runIntern tinyRepr Interner.new ["a"]) "b").2 ⟨1⟩ = some "b" := by
  obtain ⟨-, h2, h3, h4, -⟩ :=
    C10_nonatomic tinyRepr tinyValid reprInv_tiny validFrom_tiny ["a"] "b"
      (Interner.try_intern tinyRepr
        (Interner.runIntern tinyRepr Interner.new ["a"]) "b").2 rfl
  exact ⟨h2, h3, h4 1 rfl⟩

theorem intern_eq {R : Type} {ops : IstrRepr R} {st : Interner R} {key : String}
    {o : Option (Istr R)} {st2 : Interner R}
    (h : Interner.try_intern ops st key = (o, st2)) :
    Interner.intern ops st key
      = (Option.elim o (Except.error "too many interned strings") Except.ok, st2) := by
  unfold Interner.intern
  rw [h]
  cases o <;> rfl

theorem capKeys_nodup : capKeys.Nodup := by
  unfold capKeys
  refine List.Nodup.map ?_ (List.nodup_range _)
  intro a b hab
  have h2 := congrArg (fun s => s.data.length) hab
  simpa using h2

theorem capKeys_decomp :
    capKeys = String.mk []
      :: ((List.range (u32Bound - 2)).map
            fun n => String.mk (List.replicate (n + 1) 'a')) := by
  unfold capKeys
  have h : u32Bound - 1 = (u32Bound - 2) + 1 := by decide
  rw [h, List.range_succ_eq_map, List.map_cons, List.map_map]
  rfl

theorem capState_arena : capState.arena = capKeys := by
  unfold capState
  rw [runIntern_arena_fresh nonZeroU32Repr capKeys Interner.new capKeys_nodup
    (by intro k _ hmem; simp [Interner.new] at hmem)]
  rw [show (Interner.new : Interner Nat).arena = [] from rfl, List.nil_append]

theorem capState_len : capState.arena.length = u32Bound - 1 := by
  rw [capState_arena]
  unfold capKeys
  simp

theorem cap_find_empty : Lookup.find nonZeroU32Repr
    ((Interner.try_intern nonZeroU32Repr Interner.new (String.mk [])).2).arena
    ((Interner.try_intern nonZeroU32Repr Interner.new (String.mk [])).2).table
    (hash_one (String.mk [])) (String.mk [])
    = some ⟨⟨1⟩, hash_one (String.mk [])⟩ := by decide

theorem capState_decomp : capState = Interner.runIntern nonZeroU32Repr
    (Interner.try_intern nonZeroU32Repr Interner.new (String.mk [])).2
    ((List.range (u32Bound - 2)).map
      fun n => String.mk (List.replicate (n + 1) 'a')) := by
  unfold capState
  rw [capKeys_decomp, runIntern_cons]

theorem capState_find : Lookup.find nonZeroU32Repr capState.arena capState.table
    (hash_one (String.mk [])) (String.mk [])
    = some ⟨⟨1⟩, hash_one (String.mk [])⟩ := by
  have hg1 : GoodState nonZeroU32Repr
      (Interner.try_intern nonZeroU32Repr Interner.new (String.mk [])).2 :=
    goodState_step reprInv_nonZeroU32 (goodState_new _) (String.mk [])
  rw [capState_decomp]
  exact find_stable_run reprInv_nonZeroU32 hg1
    (hash_one (String.mk [])) (String.mk []) cap_find_empty
    ((List.range (u32Bound - 2)).map fun n => String.mk (List.replicate (n + 1) 'a'))

/-- C3 counterexample: fill a fresh `NonZeroU32` interner with `2^32 - 1` distinct
strings, occupying every representable slot index, so that the arena's next slot index
`2^32 - 1` cannot be represented.  Interning the already-interned first string (the
empty string) then still succeeds with its old identifier — `intern` does not fail —
refuting "intern fails fatally if and only if the arena's next slot index cannot be
represented in the configured identifier width". -/
theorem C3_counterexample :
    (Interner.intern nonZeroU32Repr capState (String.mk [])).1 = Except.ok ⟨1⟩
    ∧ ¬ (Interner.intern nonZeroU32Repr capState (String.mk [])).1
        = Except.error "too many interned strings"
    ∧ nonZeroU32Repr.from_index capState.arena.length = none := by
  have htry := try_intern_occupied capState_find
  have h1 : (Interner.intern nonZeroU32Repr capState (String.mk [])).1
      = Except.ok ⟨1⟩ := by
    rw [intern_eq htry]
    rfl
  refine ⟨h1, ?_, ?_⟩
  · intro hx
    rw [hx] at h1
    cases h1
  · rw [capState_len]
    decide
